import Mathlib

/-!
Verification of the Wt `WTemplate` template-substitution engine.

The repository ships only the class header `src/src/Wt/WTemplate` (declarations
and documentation comments); the member function bodies (`WTemplate.C`) are not
part of the source tree. The engine below is therefore modelled from the
specification (spec.md sections 4.1 - 4.5, 6 and 7) and from the behaviour
documented in the header's comments, keeping the header's member names
(`setTemplateText`, `bindString`, `bindWidget`, `setCondition`,
`conditionValue`, `resolveString`, `handleUnresolvedVariable`,
`resolveFunction`, `clear`, `renderTemplate`, `parseArgs`).

Strings are processed as `List Char`; the public API uses `String`.
-/

namespace WtSpec

/-- Modelled from the spec: the error taxonomy of section 7. The bodies that
raise these errors (`WTemplate.C`) are missing from the source tree; fatal
render failures are `MalformedPlaceholder` (unterminated placeholder or quoted
argument, empty placeholder name) and `UnbalancedConditional` (mismatched or
unclosed conditional block). -/
inductive RenderError where
  | MalformedPlaceholder
  | UnbalancedConditional
deriving DecidableEq, Repr

/-- Modelled from the spec: a bound widget/fragment is a black box here;
the engine only needs its rendered textual form (spec section 1 and 6,
`resolveWidget -> renderable-fragment`, "its text form is produced by the
fragment's own renderer, outside this core"). -/
structure WWidget where
  renderedText : String
deriving DecidableEq, Repr

/-- Modelled from the spec: a registered template function takes the parsed
argument pairs and produces text (spec section 3, Function Table; the C++
`Function` callable writes its textual result to the output stream). -/
def TFunction : Type := List (String × String) → String

/-- The double-quote character (code point 34) recognised by the argument
parser. -/
def dquote : Char := Char.ofNat 34

/-- The single-quote character (code point 39) recognised by the argument
parser. -/
def squote : Char := Char.ofNat 39

/-- Association-list lookup keyed by `String`, used for the engine's maps. -/
def alookup {α : Type} (k : String) : List (String × α) → Option α
  | [] => none
  | p :: ps => if p.1 = k then some p.2 else alookup k ps

/-- Association-list insert: replaces any previous binding for the key. -/
def ainsert {α : Type} (k : String) (v : α) (m : List (String × α)) :
    List (String × α) :=
  (k, v) :: m.filter (fun p => p.1 ≠ k)

/-- Association-list erase: removes any binding for the key. -/
def aerase {α : Type} (k : String) (m : List (String × α)) :
    List (String × α) :=
  m.filter (fun p => p.1 ≠ k)

/-- Modelled from the spec: the engine instance state of the header's private
section (`functions_`, `strings_`, `widgets_`, `conditions_`, `text_`). A
widget binding stores `Option WWidget`: `none` models a null (`0`) widget
pointer, which the header documents as resolving to an empty string. The
condition set stores the names whose condition value is `true`. -/
structure WTemplate where
  functions_ : List (String × TFunction)
  strings_ : List (String × String)
  widgets_ : List (String × Option WWidget)
  conditions_ : List String
  text_ : String

/-- A template with no bindings, no conditions, no functions and empty text. -/
def WTemplate.empty : WTemplate :=
  { functions_ := [], strings_ := [], widgets_ := [], conditions_ := [],
    text_ := "" }

/-- Returns the template text (header accessor `templateText`). -/
def templateText (t : WTemplate) : String := t.text_

/-- Modelled from the spec: `setTemplateText` replaces the stored template
text; the header documents that changing the template text does not clear
bound widgets or values. -/
def setTemplateText (t : WTemplate) (text : String) : WTemplate :=
  { t with text_ := text }

/-- Modelled from the spec: `bindString` binds a string value to a variable. -/
def bindString (t : WTemplate) (varName : String) (value : String) :
    WTemplate :=
  { t with strings_ := ainsert varName value t.strings_,
           widgets_ := aerase varName t.widgets_ }

/-- Modelled from the spec: `bindEmpty` binds an empty string to a variable. -/
def bindEmpty (t : WTemplate) (varName : String) : WTemplate :=
  bindString t varName ""

/-- Modelled from the spec: `bindWidget` binds a widget to a variable; a
previously bound string value is removed. Passing `none` models the
documented null (`0`) widget, which resolves to an empty string. -/
def bindWidget (t : WTemplate) (varName : String) (widget : Option WWidget) :
    WTemplate :=
  { t with widgets_ := ainsert varName widget t.widgets_,
           strings_ := aerase varName t.strings_ }

/-- Modelled from the spec: `addFunction` registers a function in the
function table. -/
def addFunction (t : WTemplate) (name : String) (fn : TFunction) : WTemplate :=
  { t with functions_ := ainsert name fn t.functions_ }

/-- Modelled from the spec: `setCondition` enables or disables a conditional
block; the condition set records the names that are `true`. -/
def setCondition (t : WTemplate) (name : String) (value : Bool) : WTemplate :=
  { t with conditions_ :=
      if value then
        if name ∈ t.conditions_ then t.conditions_ else name :: t.conditions_
      else t.conditions_.filter (fun n => n ≠ name) }

/-- Modelled from the spec: `conditionValue` returns a condition's value; the
default value of all conditions is `false` (spec section 3). -/
def conditionValue (t : WTemplate) (name : String) : Bool :=
  t.conditions_.contains name

/-- Modelled from the spec: `resolveWidget` returns the widget bound with
`bindWidget` (the inner `Option` is the stored, possibly null, pointer). -/
def resolveWidget (t : WTemplate) (varName : String) : Option (Option WWidget) :=
  alookup varName t.widgets_

/-- The textual form of a resolved widget binding; a null widget resolves to
an empty string, as documented in the header for `bindWidget`. -/
def widgetText : Option WWidget → String
  | some w => w.renderedText
  | none => ""

/-- Modelled from the spec: `handleUnresolvedVariable` default behaviour
writes `"??" + varName + "??"` (header lines 437-455, spec section 6). -/
def handleUnresolvedVariable (_t : WTemplate) (varName : String)
    (_args : List (String × String)) : String :=
  "??" ++ varName ++ "??"

/-- Modelled from the spec: `resolveString` considers first a string bound
with `bindString`; if absent it resolves a widget with `resolveWidget` and
renders it; if that fails too it calls `handleUnresolvedVariable` (header
lines 411-435, spec section 4.5). -/
def resolveString (t : WTemplate) (varName : String)
    (args : List (String × String)) : String :=
  match alookup varName t.strings_ with
  | some s => s
  | none =>
    match resolveWidget t varName with
    | some w => widgetText w
    | none => handleUnresolvedVariable t varName args

/-- Modelled from the spec: `resolveFunction` considers functions bound with
`addFunction`; `none` means no function was matched (header lines 486-499). -/
def resolveFunction (t : WTemplate) (name : String)
    (args : List (String × String)) : Option String :=
  match alookup name t.functions_ with
  | some f => some (f args)
  | none => none

/-- Modelled from the spec: `clear` erases all string and widget bindings and
resets all conditions set with `setCondition`, but does not remove functions
added with `addFunction` (header lines 509-517). -/
def clear (t : WTemplate) : WTemplate :=
  { t with strings_ := [], widgets_ := [], conditions_ := [] }

/-- The classification of one placeholder span (spec section 4.2). -/
inductive Placeholder where
  | var (name : List Char)
  | func (name : List Char) (arg : List Char)
  | condOpen (name : List Char)
  | condClose (name : List Char)
deriving DecidableEq, Repr

/-- Modelled from the spec: classification of the head token of a placeholder
(spec section 4.2, rules applied in order; an empty name after
delimiter-stripping is a fatal parse failure). -/
def classify (head : List Char) : Except RenderError Placeholder :=
  if head.head? = some '<' ∧ head.getLast? = some '>' ∧
      head.take 2 ≠ ['<', '/'] then
    let name := (head.drop 1).dropLast
    if name = [] then .error .MalformedPlaceholder
    else .ok (.condOpen name)
  else if head.take 2 = ['<', '/'] ∧ head.getLast? = some '>' then
    let name := (head.drop 2).dropLast
    if name = [] then .error .MalformedPlaceholder
    else .ok (.condClose name)
  else if ':' ∈ head then
    let name := head.takeWhile (fun c => c ≠ ':')
    let arg := ((head.dropWhile (fun c => c ≠ ':')).drop 1)
    if name = [] then .error .MalformedPlaceholder
    else .ok (.func name arg)
  else
    if head = [] then .error .MalformedPlaceholder
    else .ok (.var head)

/-- Parsing state of the argument parser (spec section 4.3): between tokens,
inside a key, just after `=`, inside an unquoted value, inside a quoted
value. -/
inductive ArgMode where
  | ws
  | key (acc : List Char)
  | eq (k : List Char)
  | val (k : List Char) (acc : List Char)
  | qval (k : List Char) (q : Char) (acc : List Char)
deriving DecidableEq, Repr

/-- Modelled from the spec: the worker of `parseArgs` (spec section 4.3):
whitespace-separated tokens `key="value"`, `key='value'`, `key=value` or bare
tokens, parsed left to right into ordered `(key, value)` pairs with the
quotes stripped; an unterminated quoted value is a fatal parse failure. -/
def parseArgsGo : List Char → ArgMode → List (String × String) →
    Except RenderError (List (String × String))
  | [], m, res =>
    match m with
    | .ws => .ok res
    | .key k => .ok (res ++ [("", k.asString)])
    | .eq k => .ok (res ++ [(k.asString, "")])
    | .val k v => .ok (res ++ [(k.asString, v.asString)])
    | .qval _ _ _ => .error .MalformedPlaceholder
  | c :: cs, m, res =>
    match m with
    | .ws =>
      if c.isWhitespace then parseArgsGo cs .ws res
      else if c = '=' then parseArgsGo cs (.eq []) res
      else parseArgsGo cs (.key [c]) res
    | .key k =>
      if c = '=' then parseArgsGo cs (.eq k) res
      else if c.isWhitespace then parseArgsGo cs .ws (res ++ [("", k.asString)])
      else parseArgsGo cs (.key (k ++ [c])) res
    | .eq k =>
      if c = dquote ∨ c = squote then parseArgsGo cs (.qval k c []) res
      else if c.isWhitespace then
        parseArgsGo cs .ws (res ++ [(k.asString, "")])
      else parseArgsGo cs (.val k [c]) res
    | .val k v =>
      if c.isWhitespace then
        parseArgsGo cs .ws (res ++ [(k.asString, v.asString)])
      else parseArgsGo cs (.val k (v ++ [c])) res
    | .qval k q v =>
      if c = q then parseArgsGo cs .ws (res ++ [(k.asString, v.asString)])
      else parseArgsGo cs (.qval k q (v ++ [c])) res

/-- Modelled from the spec: `parseArgs` (declared at header lines 610-612,
body missing) parses the text following the head token into the ordered
argument pairs of spec section 4.3. -/
def parseArgs (text : List Char) :
    Except RenderError (List (String × String)) :=
  parseArgsGo text .ws []

/-- Modelled from the spec: processing of one complete placeholder span
against the conditional stack (spec sections 4.2 - 4.5): classify the head,
parse the arguments, then either update the stack (conditional open/close,
with the suppression-depth bookkeeping of section 4.4) or resolve the
variable/function — resolution is skipped while suppressed, and resolution
misses are never fatal. Returns the new stack, new suppression depth and the
characters to append to the output. -/
def processPlaceholder (t : WTemplate) (inner : List Char)
    (stack : List String) (supp : Nat) :
    Except RenderError (List String × Nat × List Char) := do
  let head := inner.takeWhile (fun c => !c.isWhitespace)
  let rest := inner.dropWhile (fun c => !c.isWhitespace)
  let args ← parseArgs rest
  let ph ← classify head
  match ph with
  | .condOpen name =>
    let stack2 := name.asString :: stack
    let supp2 :=
      if supp = 0 ∧ conditionValue t name.asString = false then stack2.length
      else supp
    .ok (stack2, supp2, [])
  | .condClose name =>
    match stack with
    | [] => .error .UnbalancedConditional
    | top :: stack2 =>
      if top = name.asString then
        let supp2 := if stack2.length + 1 ≤ supp then 0 else supp
        .ok (stack2, supp2, [])
      else .error .UnbalancedConditional
  | .var name =>
    if supp = 0 then
      .ok (stack, supp, (resolveString t name.asString args).data)
    else .ok (stack, supp, [])
  | .func name arg =>
    if supp = 0 then
      match resolveFunction t name.asString (("", arg.asString) :: args) with
      | some s => .ok (stack, supp, s.data)
      | none => .ok (stack, supp, [])
    else .ok (stack, supp, [])

/-- Scanner mode: inside literal text, or inside a `\x7b...` placeholder span
accumulating its inner text, tracking an open quote so that a closing brace
inside a quoted argument value does not terminate the span (spec 4.1). -/
inductive ScanMode where
  | lit
  | ph (acc : List Char) (q : Option Char)
deriving DecidableEq, Repr

/-- Modelled from the spec: the render pass (spec sections 4.1 and 4.4 - 4.5,
driving `renderTemplate`, whose body is missing from the source tree). Walks
the text left to right: literal text is copied when not suppressed; the
escape sequence renders as the literal two characters and does not open a
placeholder; an unescaped open delimiter starts a placeholder span ended by
the matching closing brace (quote-aware); an unterminated span is a fatal
`MalformedPlaceholder`; a non-empty conditional stack at the end of the pass
is a fatal `UnbalancedConditional`. -/
def renderGo (t : WTemplate) :
    List Char → ScanMode → List String → Nat → List Char →
    Except RenderError (List Char)
  | [], .lit, stack, _supp, out =>
    if stack = [] then .ok out else .error .UnbalancedConditional
  | [], .ph _ _, _, _, _ => .error .MalformedPlaceholder
  | '$' :: '$' :: '{' :: cs, .lit, stack, supp, out =>
    renderGo t cs .lit stack supp
      (if supp = 0 then out ++ ['$', '{'] else out)
  | '$' :: '{' :: cs, .lit, stack, supp, out =>
    renderGo t cs (.ph [] none) stack supp out
  | c :: cs, .lit, stack, supp, out =>
    renderGo t cs .lit stack supp (if supp = 0 then out ++ [c] else out)
  | c :: cs, .ph acc (some q), stack, supp, out =>
    if c = q then renderGo t cs (.ph (acc ++ [c]) none) stack supp out
    else renderGo t cs (.ph (acc ++ [c]) (some q)) stack supp out
  | c :: cs, .ph acc none, stack, supp, out =>
    if c = '}' then
      match processPlaceholder t acc stack supp with
      | .error e => .error e
      | .ok (stack2, supp2, emitted) =>
        renderGo t cs .lit stack2 supp2 (out ++ emitted)
    else if c = dquote ∨ c = squote then
      renderGo t cs (.ph (acc ++ [c]) (some c)) stack supp out
    else renderGo t cs (.ph (acc ++ [c]) none) stack supp out

/-- Modelled from the spec: `renderTemplate` (header lines 548-557, body
missing) parses the template text and resolves variables, functions and
conditional blocks in one left-to-right pass. -/
def renderTemplate (t : WTemplate) : Except RenderError String :=
  (renderGo t t.text_.data .lit [] 0 []).map List.asString

end WtSpec

namespace WtSpec

/-! ### Name predicates -/

/-- Characters permitted in the identifier-like names quantified over in the
theorems below: ASCII letters, digits, dash and underscore. -/
def isVarChar (c : Char) : Bool := c.isAlphanum || c = '-' || c = '_'

/-- A plain, non-empty, identifier-like name: such a name is classified as a
variable head, opens no quote and contains no delimiter character. -/
def isVarName (s : String) : Bool := !s.data.isEmpty && s.data.all isVarChar

/-- True exactly when the text contains an adjacent dollar-brace pair, i.e.
a placeholder opener or an escape sequence. -/
def hasDollarBrace : List Char → Bool
  | [] => false
  | c :: cs => (decide (c = '$' ∧ cs.head? = some '{')) || hasDollarBrace cs

/-- A concrete engine instance used by the witnesses: a widget bound to `w`,
a string bound to `v`, a `tr` function, condition `a` true, `b` false. -/
def sampleT : WTemplate :=
  setCondition (setCondition (addFunction (bindString (bindWidget
    WTemplate.empty "w" (some { renderedText := "W" })) "v" "VAL")
    "tr" (fun _ => "Hello")) "a" true) "b" false

theorem isVarName_spec {s : String} (h : isVarName s = true) :
    s.data ≠ [] ∧ ∀ c ∈ s.data, isVarChar c = true := by
  unfold isVarName at h
  rw [Bool.and_eq_true] at h
  obtain ⟨h1, h2⟩ := h
  refine ⟨?_, ?_⟩
  · intro hnil
    rw [hnil] at h1
    simp at h1
  · intro c hc
    exact List.all_eq_true.mp h2 c hc

theorem isVarChar_ws {c : Char} (h : isVarChar c = true) :
    c.isWhitespace = false := by
  cases hw : c.isWhitespace
  · rfl
  · exfalso
    have hw2 := hw
    simp only [Char.isWhitespace, Bool.or_eq_true, decide_eq_true_eq] at hw2
    rcases hw2 with ((rfl | rfl) | rfl) | rfl <;> exact absurd h (by decide)

theorem isVarChar_ne {c : Char} (h : isVarChar c = true) (d : Char)
    (hd : isVarChar d = false) : c ≠ d := by
  intro heq
  subst heq
  rw [h] at hd
  cases hd

/-! ### Association list lemmas -/

theorem alookup_ainsert_self {α : Type} (k : String) (v : α)
    (m : List (String × α)) : alookup k (ainsert k v m) = some v := by
  simp [alookup, ainsert]

theorem alookup_aerase_self {α : Type} (k : String) (m : List (String × α)) :
    alookup k (aerase k m) = none := by
  induction m with
  | nil => rfl
  | cons p ps ih =>
    by_cases hp : p.1 = k
    · simpa [aerase, hp] using ih
    · simpa [aerase, alookup, hp] using ih

/-! ### String and character-list plumbing -/

theorem data_append (a b : String) : (a ++ b).data = a.data ++ b.data := rfl

theorem asString_data (s : String) : s.data.asString = s := rfl

theorem asString_append (a b : List Char) :
    (a ++ b).asString = a.asString ++ b.asString := rfl

theorem takeWhile_all_append {p : Char → Bool} {l : List Char}
    (h : ∀ c ∈ l, p c = true) {x : Char} (hx : p x = false)
    (xs : List Char) : (l ++ x :: xs).takeWhile p = l := by
  induction l with
  | nil => simp [List.takeWhile, hx]
  | cons c cs ih =>
    have hc : p c = true := h c (by simp)
    simp only [List.cons_append, List.takeWhile_cons, hc, if_true]
    rw [ih (fun d hd => h d (by simp [hd]))]

theorem dropWhile_all_append {p : Char → Bool} {l : List Char}
    (h : ∀ c ∈ l, p c = true) {x : Char} (hx : p x = false)
    (xs : List Char) : (l ++ x :: xs).dropWhile p = x :: xs := by
  induction l with
  | nil => simp [List.dropWhile, hx]
  | cons c cs ih =>
    have hc : p c = true := h c (by simp)
    simp only [List.cons_append, List.dropWhile_cons, hc, if_true]
    exact ih (fun d hd => h d (by simp [hd]))

theorem takeWhile_all {p : Char → Bool} {l : List Char}
    (h : ∀ c ∈ l, p c = true) : l.takeWhile p = l :=
  List.takeWhile_eq_self_iff.mpr h

theorem dropWhile_all {p : Char → Bool} {l : List Char}
    (h : ∀ c ∈ l, p c = true) : l.dropWhile p = [] :=
  List.dropWhile_eq_nil_iff.mpr h

/-! ### Single steps of the scanner -/

theorem renderGo_lit_cons (t : WTemplate) (c : Char) (hc : c ≠ '$')
    (cs : List Char) (stack : List String) (supp : Nat) (out : List Char) :
    renderGo t (c :: cs) .lit stack supp out
      = renderGo t cs .lit stack supp (if supp = 0 then out ++ [c] else out) := by
  rcases cs with _ | ⟨c2, cs⟩
  · simp [renderGo, hc]
  · rcases cs with _ | ⟨c3, cs⟩
    · simp [renderGo, hc]
    · simp [renderGo, hc]

theorem renderGo_open (t : WTemplate) (cs : List Char) (stack : List String)
    (supp : Nat) (out : List Char) :
    renderGo t ('$' :: '{' :: cs) .lit stack supp out
      = renderGo t cs (.ph [] none) stack supp out := by
  simp [renderGo]

theorem renderGo_escape (t : WTemplate) (cs : List Char) (stack : List String)
    (supp : Nat) (out : List Char) :
    renderGo t ('$' :: '$' :: '{' :: cs) .lit stack supp out
      = renderGo t cs .lit stack supp
          (if supp = 0 then out ++ ['$', '{'] else out) := by
  simp [renderGo]

theorem renderGo_ph_cons (t : WTemplate) (c : Char) (hc1 : c ≠ '}')
    (hc2 : c ≠ dquote) (hc3 : c ≠ squote)
    (cs : List Char) (acc : List Char) (stack : List String) (supp : Nat)
    (out : List Char) :
    renderGo t (c :: cs) (.ph acc none) stack supp out
      = renderGo t cs (.ph (acc ++ [c]) none) stack supp out := by
  simp [renderGo, hc1, hc2, hc3]

theorem renderGo_ph_close (t : WTemplate) (cs : List Char) (acc : List Char)
    (stack : List String) (supp : Nat) (out : List Char) :
    renderGo t ('}' :: cs) (.ph acc none) stack supp out
      = match processPlaceholder t acc stack supp with
        | .error e => .error e
        | .ok (stack2, supp2, emitted) =>
          renderGo t cs .lit stack2 supp2 (out ++ emitted) := by
  simp [renderGo]

/-! ### Multi-character steps -/

theorem renderGo_lit_append (t : WTemplate) {cs : List Char}
    (h : ∀ c ∈ cs, c ≠ '$') (rest : List Char) (stack : List String)
    (supp : Nat) (out : List Char) :
    renderGo t (cs ++ rest) .lit stack supp out
      = renderGo t rest .lit stack supp (if supp = 0 then out ++ cs else out) := by
  induction cs generalizing out with
  | nil => by_cases hs : supp = 0 <;> simp [hs]
  | cons c cs ih =>
    have hc : c ≠ '$' := h c (by simp)
    rw [List.cons_append, renderGo_lit_cons t c hc,
        ih (fun x hx => h x (by simp [hx]))]
    congr 1
    by_cases hs : supp = 0 <;> simp [hs]

theorem renderGo_ph_append (t : WTemplate) {cs : List Char}
    (h : ∀ c ∈ cs, c ≠ '}' ∧ c ≠ dquote ∧ c ≠ squote) (rest : List Char)
    (acc : List Char) (stack : List String) (supp : Nat) (out : List Char) :
    renderGo t (cs ++ rest) (.ph acc none) stack supp out
      = renderGo t rest (.ph (acc ++ cs) none) stack supp out := by
  induction cs generalizing acc with
  | nil => simp
  | cons c cs ih =>
    obtain ⟨h1, h2, h3⟩ := h c (by simp)
    rw [List.cons_append, renderGo_ph_cons t c h1 h2 h3,
        ih (fun x hx => h x (by simp [hx]))]
    simp

theorem renderGo_placeholder (t : WTemplate) {inner : List Char}
    (h : ∀ c ∈ inner, c ≠ '}' ∧ c ≠ dquote ∧ c ≠ squote) (rest : List Char)
    (stack : List String) (supp : Nat) (out : List Char) :
    renderGo t ('$' :: '{' :: (inner ++ '}' :: rest)) .lit stack supp out
      = match processPlaceholder t inner stack supp with
        | .error e => .error e
        | .ok (stack2, supp2, emitted) =>
          renderGo t rest .lit stack2 supp2 (out ++ emitted) := by
  rw [renderGo_open, renderGo_ph_append t h, renderGo_ph_close]
  simp

end WtSpec

namespace WtSpec

/-! ### Facts about name characters -/

theorem isVarChar_facts {c : Char} (hv : isVarChar c = true) :
    c ≠ '$' ∧ c ≠ '{' ∧ c ≠ '}' ∧ c ≠ '<' ∧ c ≠ '>' ∧ c ≠ '/' ∧ c ≠ ':' ∧
    c ≠ '=' ∧ c ≠ dquote ∧ c ≠ squote ∧ c.isWhitespace = false :=
  ⟨isVarChar_ne hv _ (by decide), isVarChar_ne hv _ (by decide),
    isVarChar_ne hv _ (by decide), isVarChar_ne hv _ (by decide),
    isVarChar_ne hv _ (by decide), isVarChar_ne hv _ (by decide),
    isVarChar_ne hv _ (by decide), isVarChar_ne hv _ (by decide),
    isVarChar_ne hv _ (by decide), isVarChar_ne hv _ (by decide),
    isVarChar_ws hv⟩

/-! ### Computation of the placeholder classifier -/

theorem classify_var_list {l : List Char} (hne : l ≠ [])
    (hch : ∀ c ∈ l, isVarChar c = true) : classify l = .ok (.var l) := by
  rcases l with _ | ⟨c, cs⟩
  · exact absurd rfl hne
  · have hc : isVarChar c = true := hch c (by simp)
    have hclt : c ≠ '<' := (isVarChar_facts hc).2.2.2.1
    have hcolon : ¬ (':' ∈ (c :: cs)) := by
      intro hmem
      exact absurd (hch ':' hmem) (by decide)
    have hcond1 : ¬((c :: cs).head? = some '<' ∧ (c :: cs).getLast? = some '>'
        ∧ (c :: cs).take 2 ≠ ['<', '/']) := by
      rintro ⟨h1, -, -⟩
      simp at h1
      exact hclt h1
    have hcond2 : ¬((c :: cs).take 2 = ['<', '/']
        ∧ (c :: cs).getLast? = some '>') := by
      rintro ⟨h1, -⟩
      rcases cs with _ | ⟨c2, cs2⟩
      · simp [List.take] at h1
      · simp [List.take] at h1
        exact hclt h1.1
    unfold classify
    rw [if_neg hcond1, if_neg hcond2, if_neg hcolon,
        if_neg (by simp : ¬(c :: cs = []))]

theorem classify_condOpen_list {l : List Char} (hne : l ≠ [])
    (hch : ∀ c ∈ l, isVarChar c = true) :
    classify ('<' :: l ++ ['>']) = .ok (.condOpen l) := by
  rcases l with _ | ⟨c, cs⟩
  · exact absurd rfl hne
  · have hc : isVarChar c = true := hch c (by simp)
    have hcond1 : ('<' :: (c :: cs) ++ ['>']).head? = some '<'
        ∧ ('<' :: (c :: cs) ++ ['>']).getLast? = some '>'
        ∧ ('<' :: (c :: cs) ++ ['>']).take 2 ≠ ['<', '/'] := by
      refine ⟨rfl, ?_, ?_⟩
      · rw [show ('<' :: (c :: cs) ++ ['>']) = ('<' :: c :: cs) ++ ['>'] from
          rfl, List.getLast?_concat]
      · simp [List.take]
        intro h
        exact absurd ((isVarChar_facts hc).2.2.2.2.2.1) (by simp [h])
    unfold classify
    rw [if_pos hcond1]
    have hname : (('<' :: (c :: cs) ++ ['>']).drop 1).dropLast = c :: cs := by
      show ((c :: cs) ++ ['>']).dropLast = c :: cs
      rw [List.dropLast_concat]
    rw [hname]
    simp

theorem classify_condClose_list {l : List Char} (hne : l ≠ [])
    (hch : ∀ c ∈ l, isVarChar c = true) :
    classify ('<' :: '/' :: l ++ ['>']) = .ok (.condClose l) := by
  rcases l with _ | ⟨c, cs⟩
  · exact absurd rfl hne
  · have hcond1 : ¬(('<' :: '/' :: (c :: cs) ++ ['>']).head? = some '<'
        ∧ ('<' :: '/' :: (c :: cs) ++ ['>']).getLast? = some '>'
        ∧ ('<' :: '/' :: (c :: cs) ++ ['>']).take 2 ≠ ['<', '/']) := by
      rintro ⟨-, -, h3⟩
      exact h3 (by simp [List.take])
    have hcond2 : ('<' :: '/' :: (c :: cs) ++ ['>']).take 2 = ['<', '/']
        ∧ ('<' :: '/' :: (c :: cs) ++ ['>']).getLast? = some '>' := by
      refine ⟨by simp [List.take], ?_⟩
      rw [show ('<' :: '/' :: (c :: cs) ++ ['>'])
            = ('<' :: '/' :: c :: cs) ++ ['>'] from rfl, List.getLast?_concat]
    unfold classify
    rw [if_neg hcond1, if_pos hcond2]
    have hname : (('<' :: '/' :: (c :: cs) ++ ['>']).drop 2).dropLast
        = c :: cs := by
      show ((c :: cs) ++ ['>']).dropLast = c :: cs
      rw [List.dropLast_concat]
    rw [hname]
    simp

theorem classify_func_list {f a : List Char} (hne : f ≠ [])
    (hch : ∀ c ∈ f, isVarChar c = true) :
    classify (f ++ ':' :: a) = .ok (.func f a) := by
  rcases f with _ | ⟨c, cs⟩
  · exact absurd rfl hne
  · have hc : isVarChar c = true := hch c (by simp)
    have hclt : c ≠ '<' := (isVarChar_facts hc).2.2.2.1
    have hcond1 : ¬(((c :: cs) ++ ':' :: a).head? = some '<'
        ∧ ((c :: cs) ++ ':' :: a).getLast? = some '>'
        ∧ ((c :: cs) ++ ':' :: a).take 2 ≠ ['<', '/']) := by
      rintro ⟨h1, -, -⟩
      simp at h1
      exact hclt h1
    have hcond2 : ¬(((c :: cs) ++ ':' :: a).take 2 = ['<', '/']
        ∧ ((c :: cs) ++ ':' :: a).getLast? = some '>') := by
      rintro ⟨h1, -⟩
      rcases cs with _ | ⟨c2, cs2⟩
      · simp [List.take] at h1
      · simp [List.take] at h1
        exact hclt h1.1
    have hcolon : ':' ∈ ((c :: cs) ++ ':' :: a) := by simp
    have htw : ((c :: cs) ++ ':' :: a).takeWhile (fun x => x ≠ ':')
        = c :: cs := by
      apply takeWhile_all_append
      · intro d hd
        simpa using (isVarChar_facts (hch d hd)).2.2.2.2.2.2.1
      · simp
    have hdw : ((c :: cs) ++ ':' :: a).dropWhile (fun x => x ≠ ':')
        = ':' :: a := by
      apply dropWhile_all_append
      · intro d hd
        simpa using (isVarChar_facts (hch d hd)).2.2.2.2.2.2.1
      · simp
    unfold classify
    rw [if_neg hcond1, if_neg hcond2, if_pos hcolon, htw, hdw]
    simp

end WtSpec

namespace WtSpec

theorem varName_not_ws {v : String} (hv : isVarName v = true) :
    ∀ c ∈ v.data, (!c.isWhitespace) = true := by
  intro c hc
  have := isVarChar_ws ((isVarName_spec hv).2 c hc)
  simp [this]

theorem processPlaceholder_var (t : WTemplate) {v : String}
    (hv : isVarName v = true) (stack : List String) (supp : Nat) :
    processPlaceholder t v.data stack supp
      = .ok (stack, supp,
          if supp = 0 then (resolveString t v []).data else []) := by
  obtain ⟨hne, hch⟩ := isVarName_spec hv
  unfold processPlaceholder
  rw [takeWhile_all (varName_not_ws hv), dropWhile_all (varName_not_ws hv)]
  dsimp only
  rw [classify_var_list hne hch, show parseArgs [] = .ok [] from rfl]
  simp only [Bind.bind, Except.bind, asString_data]
  by_cases hs : supp = 0 <;> simp [hs]

end WtSpec

namespace WtSpec

theorem processPlaceholder_condOpen (t : WTemplate) {v : String}
    (hv : isVarName v = true) (stack : List String) (supp : Nat) :
    processPlaceholder t ('<' :: v.data ++ ['>']) stack supp
      = .ok (v :: stack,
          (if supp = 0 ∧ conditionValue t v = false then stack.length + 1
           else supp), []) := by
  obtain ⟨hne, hch⟩ := isVarName_spec hv
  have hws : ∀ c ∈ ('<' :: v.data ++ ['>']), (!c.isWhitespace) = true := by
    intro c hc
    rcases List.mem_cons.mp hc with rfl | hc2
    · decide
    · rcases List.mem_append.mp hc2 with hc3 | hc3
      · exact varName_not_ws hv c hc3
      · simp at hc3
        subst hc3
        decide
  unfold processPlaceholder
  rw [takeWhile_all hws, dropWhile_all hws]
  dsimp only
  rw [classify_condOpen_list hne hch, show parseArgs [] = .ok [] from rfl]
  simp only [Bind.bind, Except.bind, asString_data]
  simp

theorem processPlaceholder_condClose (t : WTemplate) {v : String}
    (hv : isVarName v = true) (stack : List String) (supp : Nat) :
    processPlaceholder t ('<' :: '/' :: v.data ++ ['>']) stack supp
      = match stack with
        | [] => .error .UnbalancedConditional
        | top :: stack2 =>
          if top = v then
            .ok (stack2, (if stack2.length + 1 ≤ supp then 0 else supp), [])
          else .error .UnbalancedConditional := by
  obtain ⟨hne, hch⟩ := isVarName_spec hv
  have hws : ∀ c ∈ ('<' :: '/' :: v.data ++ ['>']), (!c.isWhitespace) = true := by
    intro c hc
    rcases List.mem_cons.mp hc with rfl | hc2
    · decide
    · rcases List.mem_cons.mp hc2 with rfl | hc3
      · decide
      · rcases List.mem_append.mp hc3 with hc4 | hc4
        · exact varName_not_ws hv c hc4
        · simp at hc4
          subst hc4
          decide
  unfold processPlaceholder
  rw [takeWhile_all hws, dropWhile_all hws]
  dsimp only
  rw [classify_condClose_list hne hch, show parseArgs [] = .ok [] from rfl]
  simp only [Bind.bind, Except.bind, asString_data]

theorem processPlaceholder_func (t : WTemplate) {f a : String}
    (hf : isVarName f = true) (ha : isVarName a = true)
    (stack : List String) (supp : Nat) :
    processPlaceholder t (f.data ++ ':' :: a.data) stack supp
      = .ok (stack, supp,
          if supp = 0 then
            match resolveFunction t f [("", a)] with
            | some s => s.data
            | none => []
          else []) := by
  obtain ⟨hnef, hchf⟩ := isVarName_spec hf
  have hws : ∀ c ∈ (f.data ++ ':' :: a.data), (!c.isWhitespace) = true := by
    intro c hc
    rcases List.mem_append.mp hc with hc2 | hc2
    · exact varName_not_ws hf c hc2
    · rcases List.mem_cons.mp hc2 with rfl | hc3
      · decide
      · exact varName_not_ws ha c hc3
  unfold processPlaceholder
  rw [takeWhile_all hws, dropWhile_all hws]
  dsimp only
  rw [classify_func_list hnef hchf, show parseArgs [] = .ok [] from rfl]
  simp only [Bind.bind, Except.bind, asString_data]
  by_cases hs : supp = 0
  · rcases hr : resolveFunction t f [("", a)] with _ | s <;> simp [hs, hr]
  · simp [hs]

end WtSpec

namespace WtSpec

theorem renderGo_nil (t : WTemplate) (stack : List String) (supp : Nat)
    (out : List Char) :
    renderGo t [] .lit stack supp out
      = if stack = [] then .ok out else .error .UnbalancedConditional := by
  simp [renderGo]

theorem varName_inner_ok {v : String} (hv : isVarName v = true) :
    ∀ c ∈ v.data, c ≠ '}' ∧ c ≠ dquote ∧ c ≠ squote := by
  intro c hc
  have h := isVarChar_facts ((isVarName_spec hv).2 c hc)
  exact ⟨h.2.2.1, h.2.2.2.2.2.2.2.2.1, h.2.2.2.2.2.2.2.2.2.1⟩

theorem renderVar_step (t : WTemplate) {v : String} (hv : isVarName v = true)
    (rest : List Char) (stack : List String) (supp : Nat) (out : List Char) :
    renderGo t ('$' :: '{' :: (v.data ++ '}' :: rest)) .lit stack supp out
      = renderGo t rest .lit stack supp
          (out ++ if supp = 0 then (resolveString t v []).data else []) := by
  rw [renderGo_placeholder t (varName_inner_ok hv) rest stack supp out,
      processPlaceholder_var t hv]

theorem renderOpen_step (t : WTemplate) {v : String} (hv : isVarName v = true)
    (rest : List Char) (stack : List String) (supp : Nat) (out : List Char) :
    renderGo t ('$' :: '{' :: '<' :: (v.data ++ '>' :: '}' :: rest)) .lit
        stack supp out
      = renderGo t rest .lit (v :: stack)
          (if supp = 0 ∧ conditionValue t v = false then stack.length + 1
           else supp) out := by
  have hin : ∀ c ∈ ('<' :: v.data ++ ['>']), c ≠ '}' ∧ c ≠ dquote ∧ c ≠ squote := by
    intro c hc
    rcases List.mem_cons.mp hc with rfl | hc2
    · exact ⟨by decide, by decide, by decide⟩
    · rcases List.mem_append.mp hc2 with hc3 | hc3
      · exact varName_inner_ok hv c hc3
      · simp at hc3
        subst hc3
        exact ⟨by decide, by decide, by decide⟩
  have hshape : ('$' :: '{' :: '<' :: (v.data ++ '>' :: '}' :: rest))
      = ('$' :: '{' :: (('<' :: v.data ++ ['>']) ++ '}' :: rest)) := by
    simp
  rw [hshape, renderGo_placeholder t hin rest stack supp out,
      processPlaceholder_condOpen t hv]
  simp

theorem renderClose_step (t : WTemplate) {v : String}
    (hv : isVarName v = true) (rest : List Char) (top : String)
    (stack : List String) (supp : Nat) (out : List Char) :
    renderGo t ('$' :: '{' :: '<' :: '/' :: (v.data ++ '>' :: '}' :: rest))
        .lit (top :: stack) supp out
      = if top = v then
          renderGo t rest .lit stack
            (if stack.length + 1 ≤ supp then 0 else supp) out
        else .error .UnbalancedConditional := by
  have hin : ∀ c ∈ ('<' :: '/' :: v.data ++ ['>']),
      c ≠ '}' ∧ c ≠ dquote ∧ c ≠ squote := by
    intro c hc
    rcases List.mem_cons.mp hc with rfl | hc2
    · exact ⟨by decide, by decide, by decide⟩
    · rcases List.mem_cons.mp hc2 with rfl | hc3
      · exact ⟨by decide, by decide, by decide⟩
      · rcases List.mem_append.mp hc3 with hc4 | hc4
        · exact varName_inner_ok hv c hc4
        · simp at hc4
          subst hc4
          exact ⟨by decide, by decide, by decide⟩
  have hshape : ('$' :: '{' :: '<' :: '/' :: (v.data ++ '>' :: '}' :: rest))
      = ('$' :: '{' :: (('<' :: '/' :: v.data ++ ['>']) ++ '}' :: rest)) := by
    simp
  rw [hshape, renderGo_placeholder t hin rest (top :: stack) supp out,
      processPlaceholder_condClose t hv]
  by_cases htop : top = v <;> simp [htop]

theorem renderCloseNil_step (t : WTemplate) {v : String}
    (hv : isVarName v = true) (rest : List Char) (supp : Nat)
    (out : List Char) :
    renderGo t ('$' :: '{' :: '<' :: '/' :: (v.data ++ '>' :: '}' :: rest))
        .lit [] supp out
      = .error .UnbalancedConditional := by
  have hin : ∀ c ∈ ('<' :: '/' :: v.data ++ ['>']),
      c ≠ '}' ∧ c ≠ dquote ∧ c ≠ squote := by
    intro c hc
    rcases List.mem_cons.mp hc with rfl | hc2
    · exact ⟨by decide, by decide, by decide⟩
    · rcases List.mem_cons.mp hc2 with rfl | hc3
      · exact ⟨by decide, by decide, by decide⟩
      · rcases List.mem_append.mp hc3 with hc4 | hc4
        · exact varName_inner_ok hv c hc4
        · simp at hc4
          subst hc4
          exact ⟨by decide, by decide, by decide⟩
  have hshape : ('$' :: '{' :: '<' :: '/' :: (v.data ++ '>' :: '}' :: rest))
      = ('$' :: '{' :: (('<' :: '/' :: v.data ++ ['>']) ++ '}' :: rest)) := by
    simp
  rw [hshape, renderGo_placeholder t hin rest [] supp out,
      processPlaceholder_condClose t hv]

theorem renderFunc_step (t : WTemplate) {f a : String}
    (hf : isVarName f = true) (ha : isVarName a = true)
    (rest : List Char) (stack : List String) (supp : Nat) (out : List Char) :
    renderGo t ('$' :: '{' :: (f.data ++ ':' :: (a.data ++ '}' :: rest)))
        .lit stack supp out
      = renderGo t rest .lit stack supp
          (out ++
            if supp = 0 then
              match resolveFunction t f [("", a)] with
              | some s => s.data
              | none => []
            else []) := by
  have hin : ∀ c ∈ (f.data ++ ':' :: a.data),
      c ≠ '}' ∧ c ≠ dquote ∧ c ≠ squote := by
    intro c hc
    rcases List.mem_append.mp hc with hc2 | hc2
    · exact varName_inner_ok hf c hc2
    · rcases List.mem_cons.mp hc2 with rfl | hc3
      · exact ⟨by decide, by decide, by decide⟩
      · exact varName_inner_ok ha c hc3
  have hshape : ('$' :: '{' :: (f.data ++ ':' :: (a.data ++ '}' :: rest)))
      = ('$' :: '{' :: ((f.data ++ ':' :: a.data) ++ '}' :: rest)) := by
    simp
  rw [hshape, renderGo_placeholder t hin rest stack supp out,
      processPlaceholder_func t hf ha]

end WtSpec

namespace WtSpec

theorem renderTemplate_def (u : WTemplate) :
    renderTemplate u = (renderGo u u.text_.data .lit [] 0 []).map
      List.asString := rfl

theorem condBlock_list (u : WTemplate) {a : String} (ha : isVarName a = true)
    (X : List Char) (hX : ∀ c ∈ X, c ≠ '$') :
    renderGo u ('$' :: '{' :: '<' :: (a.data ++ '>' :: '}'
        :: (X ++ '$' :: '{' :: '<' :: '/' :: (a.data ++ ['>', '}']))))
        .lit [] 0 []
      = .ok (if conditionValue u a then X else []) := by
  by_cases hc : conditionValue u a = true <;>
    simp [renderOpen_step u ha, renderGo_lit_append u hX,
      renderClose_step u ha, renderGo_nil, hc]

theorem condNested_list (u : WTemplate) {a b : String}
    (ha : isVarName a = true) (hb : isVarName b = true)
    (Y : List Char) (hY : ∀ c ∈ Y, c ≠ '$') :
    renderGo u ('$' :: '{' :: '<' :: (a.data ++ '>' :: '}'
        :: ('$' :: '{' :: '<' :: (b.data ++ '>' :: '}'
        :: (Y ++ '$' :: '{' :: '<' :: '/' :: (b.data ++ '>' :: '}'
        :: ('$' :: '{' :: '<' :: '/' :: (a.data ++ ['>', '}'])))))))) 
        .lit [] 0 []
      = .ok (if conditionValue u a && conditionValue u b then Y else []) := by
  by_cases hca : conditionValue u a = true <;>
    by_cases hcb : conditionValue u b = true <;>
    simp [renderOpen_step u ha, renderOpen_step u hb,
      renderGo_lit_append u hY, renderClose_step u hb,
      renderClose_step u ha, renderGo_nil, hca, hcb]

end WtSpec

namespace WtSpec

/-- C1: the body of a conditional block appears in the rendered output if and
only if its condition and every enclosing condition is true; an outer false
condition suppresses a nested block's body regardless of the nested block's
own condition value. -/
theorem conditional_block_rendering (t : WTemplate) (a b : String)
    (ha : isVarName a = true) (hb : isVarName b = true) (X Y : String)
    (hX : ∀ c ∈ X.data, c ≠ '$') (hY : ∀ c ∈ Y.data, c ≠ '$') :
    renderTemplate (setTemplateText t
        ("$\x7b<" ++ a ++ ">\x7d" ++ X ++ "$\x7b</" ++ a ++ ">\x7d"))
      = .ok (if conditionValue t a then X else "")
    ∧ renderTemplate (setTemplateText t
        ("$\x7b<" ++ a ++ ">\x7d$\x7b<" ++ b ++ ">\x7d" ++ Y
          ++ "$\x7b</" ++ b ++ ">\x7d$\x7b</" ++ a ++ ">\x7d"))
      = .ok (if conditionValue t a && conditionValue t b then Y else "") := by
  have d1 : ("$\x7b<" : String).data = ['$', '{', '<'] := rfl
  have d2 : (">\x7d" : String).data = ['>', '}'] := rfl
  have d3 : ("$\x7b</" : String).data = ['$', '{', '<', '/'] := rfl
  have d4 : (">\x7d$\x7b<" : String).data = ['>', '}', '$', '{', '<'] := rfl
  have d5 : (">\x7d$\x7b</" : String).data
      = ['>', '}', '$', '{', '<', '/'] := rfl
  have hemp : (List.asString []) = "" := rfl
  constructor
  · rw [renderTemplate_def]
    have htext : (setTemplateText t
        ("$\x7b<" ++ a ++ ">\x7d" ++ X ++ "$\x7b</" ++ a ++ ">\x7d")).text_
        = "$\x7b<" ++ a ++ ">\x7d" ++ X ++ "$\x7b</" ++ a ++ ">\x7d" := rfl
    rw [htext]
    have hdata : ("$\x7b<" ++ a ++ ">\x7d" ++ X
          ++ "$\x7b</" ++ a ++ ">\x7d").data
        = '$' :: '{' :: '<' :: (a.data ++ '>' :: '}'
            :: (X.data ++ '$' :: '{' :: '<' :: '/'
              :: (a.data ++ ['>', '}']))) := by
      simp only [data_append, d1, d2, d3, List.append_assoc, List.cons_append,
        List.nil_append]
    rw [hdata, condBlock_list _ ha X.data hX]
    have hcv : conditionValue (setTemplateText t
        ("$\x7b<" ++ a ++ ">\x7d" ++ X ++ "$\x7b</" ++ a ++ ">\x7d")) a
        = conditionValue t a := rfl
    rw [hcv]
    by_cases hc : conditionValue t a = true <;>
      simp [hc, Except.map, asString_data, hemp]
  · rw [renderTemplate_def]
    have htext : (setTemplateText t
        ("$\x7b<" ++ a ++ ">\x7d$\x7b<" ++ b ++ ">\x7d" ++ Y
          ++ "$\x7b</" ++ b ++ ">\x7d$\x7b</" ++ a ++ ">\x7d")).text_
        = "$\x7b<" ++ a ++ ">\x7d$\x7b<" ++ b ++ ">\x7d" ++ Y
          ++ "$\x7b</" ++ b ++ ">\x7d$\x7b</" ++ a ++ ">\x7d" := rfl
    rw [htext]
    have hdata : ("$\x7b<" ++ a ++ ">\x7d$\x7b<" ++ b ++ ">\x7d" ++ Y
          ++ "$\x7b</" ++ b ++ ">\x7d$\x7b</" ++ a ++ ">\x7d").data
        = '$' :: '{' :: '<' :: (a.data ++ '>' :: '}'
            :: ('$' :: '{' :: '<' :: (b.data ++ '>' :: '}'
            :: (Y.data ++ '$' :: '{' :: '<' :: '/' :: (b.data ++ '>' :: '}'
            :: ('$' :: '{' :: '<' :: '/' :: (a.data ++ ['>', '}']))))))) := by
      simp only [data_append, d1, d2, d3, d4, d5, List.append_assoc,
        List.cons_append, List.nil_append]
    rw [hdata, condNested_list _ ha hb Y.data hY]
    have hcva : conditionValue (setTemplateText t
        ("$\x7b<" ++ a ++ ">\x7d$\x7b<" ++ b ++ ">\x7d" ++ Y
          ++ "$\x7b</" ++ b ++ ">\x7d$\x7b</" ++ a ++ ">\x7d")) a
        = conditionValue t a := rfl
    have hcvb : conditionValue (setTemplateText t
        ("$\x7b<" ++ a ++ ">\x7d$\x7b<" ++ b ++ ">\x7d" ++ Y
          ++ "$\x7b</" ++ b ++ ">\x7d$\x7b</" ++ a ++ ">\x7d")) b
        = conditionValue t b := rfl
    rw [hcva, hcvb]
    by_cases hca : conditionValue t a = true <;>
      by_cases hcb : conditionValue t b = true <;>
      simp [hca, hcb, Except.map, asString_data, hemp]

end WtSpec

namespace WtSpec

/-- Witness for C1: at a concrete engine with condition a true and b false,
the simple block keeps its body and the nested block drops it. -/
theorem conditional_block_rendering_witness :
    renderTemplate (setTemplateText sampleT "$\x7b<a>\x7dX$\x7b</a>\x7d")
      = .ok "X"
    ∧ renderTemplate (setTemplateText sampleT
        "$\x7b<a>\x7d$\x7b<b>\x7dY$\x7b</b>\x7d$\x7b</a>\x7d") = .ok "" := by
  obtain ⟨h1, h2⟩ := conditional_block_rendering sampleT "a" "b" (by decide)
    (by decide) "X" "Y" (by decide) (by decide)
  refine ⟨?_, ?_⟩
  · rw [show ("$\x7b<" ++ "a" ++ ">\x7d" ++ "X" ++ "$\x7b</" ++ "a"
        ++ ">\x7d") = "$\x7b<a>\x7dX$\x7b</a>\x7d" from rfl,
      show conditionValue sampleT "a" = true from rfl] at h1
    simpa using h1
  · rw [show ("$\x7b<" ++ "a" ++ ">\x7d$\x7b<" ++ "b" ++ ">\x7d" ++ "Y"
        ++ "$\x7b</" ++ "b" ++ ">\x7d$\x7b</" ++ "a" ++ ">\x7d")
        = "$\x7b<a>\x7d$\x7b<b>\x7dY$\x7b</b>\x7d$\x7b</a>\x7d" from rfl,
      show conditionValue sampleT "a" = true from rfl,
      show conditionValue sampleT "b" = false from rfl] at h2
    simpa using h2

end WtSpec

namespace WtSpec

/-- C2: a render fails fatally with UnbalancedConditional — never silently —
on a mismatched conditional close, on a close with an empty stack, and on a
conditional left open at the end of the pass; at the end of the render pass a
non-empty stack is exactly what produces this failure. -/
theorem unbalanced_conditional_fatal (t : WTemplate) (a b : String)
    (ha : isVarName a = true) (hb : isVarName b = true) (hab : a ≠ b) :
    renderTemplate (setTemplateText t
        ("$\x7b<" ++ a ++ ">\x7d$\x7b</" ++ b ++ ">\x7d"))
      = .error .UnbalancedConditional
    ∧ renderTemplate (setTemplateText t ("$\x7b</" ++ b ++ ">\x7d"))
      = .error .UnbalancedConditional
    ∧ renderTemplate (setTemplateText t ("$\x7b<" ++ a ++ ">\x7d"))
      = .error .UnbalancedConditional
    ∧ (∀ stack supp out, stack ≠ [] →
        renderGo t [] .lit stack supp out = .error .UnbalancedConditional) := by
  have d1 : ("$\x7b<" : String).data = ['$', '{', '<'] := rfl
  have d2 : (">\x7d" : String).data = ['>', '}'] := rfl
  have d3 : ("$\x7b</" : String).data = ['$', '{', '<', '/'] := rfl
  have d5 : (">\x7d$\x7b</" : String).data
      = ['>', '}', '$', '{', '<', '/'] := rfl
  refine ⟨?_, ?_, ?_, ?_⟩
  · rw [renderTemplate_def]
    have htext : (setTemplateText t
        ("$\x7b<" ++ a ++ ">\x7d$\x7b</" ++ b ++ ">\x7d")).text_
        = "$\x7b<" ++ a ++ ">\x7d$\x7b</" ++ b ++ ">\x7d" := rfl
    rw [htext]
    have hdata : ("$\x7b<" ++ a ++ ">\x7d$\x7b</" ++ b ++ ">\x7d").data
        = '$' :: '{' :: '<' :: (a.data ++ '>' :: '}'
            :: ('$' :: '{' :: '<' :: '/' :: (b.data ++ ['>', '}']))) := by
      simp only [data_append, d1, d2, d5, List.append_assoc, List.cons_append,
        List.nil_append]
    rw [hdata, renderOpen_step _ ha, renderClose_step _ hb, if_neg hab]
    rfl
  · rw [renderTemplate_def]
    have htext : (setTemplateText t ("$\x7b</" ++ b ++ ">\x7d")).text_
        = "$\x7b</" ++ b ++ ">\x7d" := rfl
    rw [htext]
    have hdata : ("$\x7b</" ++ b ++ ">\x7d").data
        = '$' :: '{' :: '<' :: '/' :: (b.data ++ '>' :: '}' :: []) := by
      simp only [data_append, d3, d2, List.append_assoc, List.cons_append,
        List.nil_append]
    rw [hdata, renderCloseNil_step _ hb]
    rfl
  · rw [renderTemplate_def]
    have htext : (setTemplateText t ("$\x7b<" ++ a ++ ">\x7d")).text_
        = "$\x7b<" ++ a ++ ">\x7d" := rfl
    rw [htext]
    have hdata : ("$\x7b<" ++ a ++ ">\x7d").data
        = '$' :: '{' :: '<' :: (a.data ++ '>' :: '}' :: []) := by
      simp only [data_append, d1, d2, List.append_assoc, List.cons_append,
        List.nil_append]
    rw [hdata, renderOpen_step _ ha, renderGo_nil,
        if_neg (by simp : ¬(([a] : List String) = []))]
    rfl
  · intro stack supp out hne
    rw [renderGo_nil, if_neg hne]

/-- Witness for C2 at concrete names a and b. -/
theorem unbalanced_conditional_fatal_witness :
    renderTemplate (setTemplateText sampleT "$\x7b<a>\x7d$\x7b</b>\x7d")
      = .error .UnbalancedConditional
    ∧ renderTemplate (setTemplateText sampleT "$\x7b</b>\x7d")
      = .error .UnbalancedConditional
    ∧ renderTemplate (setTemplateText sampleT "$\x7b<a>\x7d")
      = .error .UnbalancedConditional
    ∧ renderGo sampleT [] .lit ["a"] 0 []
      = .error .UnbalancedConditional := by
  obtain ⟨h1, h2, h3, h4⟩ := unbalanced_conditional_fatal sampleT "a" "b"
    (by decide) (by decide) (by decide)
  refine ⟨?_, ?_, ?_, h4 ["a"] 0 [] (by simp)⟩
  · rw [show ("$\x7b<" ++ "a" ++ ">\x7d$\x7b</" ++ "b" ++ ">\x7d")
        = "$\x7b<a>\x7d$\x7b</b>\x7d" from rfl] at h1
    exact h1
  · rw [show ("$\x7b</" ++ "b" ++ ">\x7d") = "$\x7b</b>\x7d" from rfl] at h2
    exact h2
  · rw [show ("$\x7b<" ++ "a" ++ ">\x7d") = "$\x7b<a>\x7d" from rfl] at h3
    exact h3

end WtSpec

namespace WtSpec

/-- C3: variable resolution order — a bound string wins; otherwise a bound
widget's rendered text; otherwise the unresolved-variable hook emits
`??name??`; and a variable placeholder never makes the render fail. -/
theorem variable_resolution_order (t : WTemplate) (name : String)
    (args : List (String × String)) (h : isVarName name = true) :
    (∀ s, alookup name t.strings_ = some s → resolveString t name args = s)
    ∧ (alookup name t.strings_ = none →
        ∀ w, alookup name t.widgets_ = some w →
          resolveString t name args = widgetText w)
    ∧ (alookup name t.strings_ = none → alookup name t.widgets_ = none →
        resolveString t name args = "??" ++ name ++ "??")
    ∧ renderTemplate (setTemplateText t ("$\x7b" ++ name ++ "\x7d"))
        = .ok (resolveString t name []) := by
  refine ⟨?_, ?_, ?_, ?_⟩
  · intro s hs
    simp [resolveString, hs]
  · intro hs w hw
    simp [resolveString, resolveWidget, hs, hw]
  · intro hs hw
    simp [resolveString, resolveWidget, handleUnresolvedVariable, hs, hw]
  · rw [renderTemplate_def]
    have htext : (setTemplateText t ("$\x7b" ++ name ++ "\x7d")).text_
        = "$\x7b" ++ name ++ "\x7d" := rfl
    rw [htext]
    have hdata : ("$\x7b" ++ name ++ "\x7d").data
        = '$' :: '{' :: (name.data ++ '}' :: []) := by
      simp only [data_append, show ("$\x7b" : String).data = ['$', '{'] from
        rfl, show ("\x7d" : String).data = ['}'] from rfl, List.append_assoc,
        List.cons_append, List.nil_append]
    rw [hdata, renderVar_step _ h, renderGo_nil, if_pos rfl]
    have hres : resolveString (setTemplateText t ("$\x7b" ++ name ++ "\x7d"))
        name [] = resolveString t name [] := rfl
    simp [Except.map, hres, asString_data]

/-- Witness for C3: in the sample engine, the bound string is emitted for v
and the unresolved marker for missing. -/
theorem variable_resolution_order_witness :
    resolveString sampleT "v" [] = "VAL"
    ∧ renderTemplate (setTemplateText sampleT "$\x7bv\x7d") = .ok "VAL"
    ∧ renderTemplate (setTemplateText sampleT "$\x7bmissing\x7d")
      = .ok "??missing??" := by
  obtain ⟨hv1, -, -, hv4⟩ := variable_resolution_order sampleT "v" []
    (by decide)
  obtain ⟨-, -, hm3, hm4⟩ := variable_resolution_order sampleT "missing" []
    (by decide)
  have hv := hv1 "VAL" rfl
  refine ⟨hv, ?_, ?_⟩
  · rw [show ("$\x7b" ++ "v" ++ "\x7d") = "$\x7bv\x7d" from rfl] at hv4
    rw [hv4, hv]
  · rw [show ("$\x7b" ++ "missing" ++ "\x7d") = "$\x7bmissing\x7d" from
      rfl] at hm4
    rw [hm4, hm3 rfl rfl]
    rfl

theorem renderGo_lit_all (t : WTemplate) {cs : List Char}
    (h : ∀ c ∈ cs, c ≠ '$') (stack : List String) (supp : Nat)
    (out : List Char) :
    renderGo t cs .lit stack supp out
      = renderGo t [] .lit stack supp
          (if supp = 0 then out ++ cs else out) := by
  have := renderGo_lit_append t h [] stack supp out
  simpa using this

/-- C4: the escape sequence renders as a literal dollar-brace pair and never
opens a placeholder, whatever content surrounds it; scanning resumes after
the escaped brace. -/
theorem escape_sequence_literal (t : WTemplate) (pre post v : String)
    (hpre : ∀ c ∈ pre.data, c ≠ '$') (hpost : ∀ c ∈ post.data, c ≠ '$')
    (hv : isVarName v = true) :
    renderTemplate (setTemplateText t (pre ++ "$$\x7b" ++ post))
      = .ok (pre ++ "$\x7b" ++ post)
    ∧ renderTemplate (setTemplateText t ("$$\x7b" ++ v ++ "\x7d"))
      = .ok ("$\x7b" ++ v ++ "\x7d") := by
  constructor
  · rw [renderTemplate_def]
    have htext : (setTemplateText t (pre ++ "$$\x7b" ++ post)).text_
        = pre ++ "$$\x7b" ++ post := rfl
    rw [htext]
    have hdata : (pre ++ "$$\x7b" ++ post).data
        = pre.data ++ '$' :: '$' :: '{' :: post.data := by
      simp only [data_append, show ("$$\x7b" : String).data = ['$', '$', '{']
        from rfl, List.append_assoc, List.cons_append, List.nil_append]
    rw [hdata, renderGo_lit_append _ hpre, if_pos rfl, List.nil_append,
        renderGo_escape, if_pos rfl, renderGo_lit_all _ hpost, if_pos rfl,
        renderGo_nil, if_pos rfl]
    have hs : (pre.data ++ ['$', '{'] ++ post.data).asString
        = pre ++ "$\x7b" ++ post := by
      rw [show (['$', '{'] : List Char) = ("$\x7b" : String).data from rfl,
        ← data_append, ← data_append, asString_data]
    simp only [Except.map, List.append_assoc] at hs ⊢
    rw [hs]
  · rw [renderTemplate_def]
    have htext : (setTemplateText t ("$$\x7b" ++ v ++ "\x7d")).text_
        = "$$\x7b" ++ v ++ "\x7d" := rfl
    rw [htext]
    have hdata : ("$$\x7b" ++ v ++ "\x7d").data
        = '$' :: '$' :: '{' :: (v.data ++ ['}']) := by
      simp only [data_append, show ("$$\x7b" : String).data = ['$', '$', '{']
        from rfl, show ("\x7d" : String).data = ['}'] from rfl,
        List.append_assoc, List.cons_append, List.nil_append]
    have hlit : ∀ c ∈ (v.data ++ ['}']), c ≠ '$' := by
      intro c hc
      rcases List.mem_append.mp hc with hc2 | hc2
      · exact (isVarChar_facts ((isVarName_spec hv).2 c hc2)).1
      · simp at hc2
        subst hc2
        decide
    rw [hdata, renderGo_escape, if_pos rfl, List.nil_append,
        renderGo_lit_all _ hlit, if_pos rfl, renderGo_nil, if_pos rfl]
    have hs : ((['$', '{'] : List Char) ++ (v.data ++ ['}'])).asString
        = "$\x7b" ++ v ++ "\x7d" := rfl
    simp only [Except.map, List.append_assoc] at hs ⊢
    rw [hs]

/-- Witness for C4 at concrete surroundings. -/
theorem escape_sequence_literal_witness :
    renderTemplate (setTemplateText sampleT "a $$\x7b b") = .ok "a $\x7b b"
    ∧ renderTemplate (setTemplateText sampleT "$$\x7bv\x7d")
      = .ok "$\x7bv\x7d" := by
  obtain ⟨h1, h2⟩ := escape_sequence_literal sampleT "a " " b" "v"
    (by decide) (by decide) (by decide)
  constructor
  · rw [show ("a " ++ "$$\x7b" ++ " b") = "a $$\x7b b" from rfl] at h1
    rw [h1]
    rfl
  · rw [show ("$$\x7b" ++ "v" ++ "\x7d") = "$$\x7bv\x7d" from rfl] at h2
    rw [h2]
    rfl

end WtSpec

namespace WtSpec

/-- C6: a function placeholder writes the registered function's textual
result at its position; with no matching registration nothing at all is
written for that span and rendering continues without error. -/
theorem function_placeholder (t : WTemplate) (f a pre post : String)
    (hf : isVarName f = true) (ha : isVarName a = true)
    (hpre : ∀ c ∈ pre.data, c ≠ '$') (hpost : ∀ c ∈ post.data, c ≠ '$') :
    (∀ fn, alookup f t.functions_ = some fn →
      renderTemplate (setTemplateText t
          (pre ++ "$\x7b" ++ f ++ ":" ++ a ++ "\x7d" ++ post))
        = .ok (pre ++ fn [("", a)] ++ post))
    ∧ (alookup f t.functions_ = none →
      renderTemplate (setTemplateText t
          (pre ++ "$\x7b" ++ f ++ ":" ++ a ++ "\x7d" ++ post))
        = .ok (pre ++ post)) := by
  have hdata : (pre ++ "$\x7b" ++ f ++ ":" ++ a ++ "\x7d" ++ post).data
      = pre.data ++ '$' :: '{' :: (f.data ++ ':' :: (a.data ++ '}'
          :: post.data)) := by
    simp only [data_append, show ("$\x7b" : String).data = ['$', '{'] from rfl,
      show (":" : String).data = [':'] from rfl,
      show ("\x7d" : String).data = ['}'] from rfl,
      List.append_assoc, List.cons_append, List.nil_append]
  have hres : resolveFunction (setTemplateText t
      (pre ++ "$\x7b" ++ f ++ ":" ++ a ++ "\x7d" ++ post)) f [("", a)]
      = resolveFunction t f [("", a)] := rfl
  constructor
  · intro fn hfn
    rw [renderTemplate_def]
    have htext : (setTemplateText t
        (pre ++ "$\x7b" ++ f ++ ":" ++ a ++ "\x7d" ++ post)).text_
        = pre ++ "$\x7b" ++ f ++ ":" ++ a ++ "\x7d" ++ post := rfl
    rw [htext, hdata, renderGo_lit_append _ hpre, if_pos rfl,
        List.nil_append, renderFunc_step _ hf ha, if_pos rfl, hres]
    rw [show resolveFunction t f [("", a)] = some (fn [("", a)]) from by
      simp [resolveFunction, hfn]]
    rw [renderGo_lit_all _ hpost, if_pos rfl, renderGo_nil, if_pos rfl]
    have hs : (pre.data ++ ((fn [("", a)]).data ++ post.data)).asString
        = pre ++ fn [("", a)] ++ post := by
      rw [← List.append_assoc, ← data_append, ← data_append, asString_data]
    simp only [Except.map, List.append_assoc]
    rw [hs]
  · intro hfn
    rw [renderTemplate_def]
    have htext : (setTemplateText t
        (pre ++ "$\x7b" ++ f ++ ":" ++ a ++ "\x7d" ++ post)).text_
        = pre ++ "$\x7b" ++ f ++ ":" ++ a ++ "\x7d" ++ post := rfl
    rw [htext, hdata, renderGo_lit_append _ hpre, if_pos rfl,
        List.nil_append, renderFunc_step _ hf ha, if_pos rfl, hres]
    rw [show resolveFunction t f [("", a)] = none from by
      simp [resolveFunction, hfn]]
    rw [renderGo_lit_all _ hpost, if_pos rfl, renderGo_nil, if_pos rfl]
    have hs : (pre.data ++ ([] ++ post.data)).asString = pre ++ post := by
      simp only [List.nil_append]
      rw [← data_append, asString_data]
    simp only [Except.map, List.append_assoc]
    rw [hs]

/-- Witness for C6: the sample engine registers tr returning Hello; an
unregistered function name renders nothing. -/
theorem function_placeholder_witness :
    renderTemplate (setTemplateText sampleT "[$\x7btr:greeting\x7d]")
      = .ok "[Hello]"
    ∧ renderTemplate (setTemplateText sampleT "[$\x7bnosuch:greeting\x7d]")
      = .ok "[]" := by
  obtain ⟨h1, -⟩ := function_placeholder sampleT "tr" "greeting" "[" "]"
    (by decide) (by decide) (by decide) (by decide)
  obtain ⟨-, h2⟩ := function_placeholder sampleT "nosuch" "greeting" "[" "]"
    (by decide) (by decide) (by decide) (by decide)
  constructor
  · have := h1 (fun _ => "Hello") rfl
    rw [show ("[" ++ "$\x7b" ++ "tr" ++ ":" ++ "greeting" ++ "\x7d" ++ "]")
        = "[$\x7btr:greeting\x7d]" from rfl] at this
    rw [this]
    rfl
  · have := h2 rfl
    rw [show ("[" ++ "$\x7b" ++ "nosuch" ++ ":" ++ "greeting" ++ "\x7d"
        ++ "]") = "[$\x7bnosuch:greeting\x7d]" from rfl] at this
    rw [this]
    rfl

end WtSpec

namespace WtSpec

theorem renderGo_dollar_step (t : WTemplate) {cs : List Char}
    (h : hasDollarBrace ('$' :: cs) = false) (stack : List String)
    (supp : Nat) (out : List Char) :
    renderGo t ('$' :: cs) .lit stack supp out
      = renderGo t cs .lit stack supp
          (if supp = 0 then out ++ ['$'] else out) := by
  simp only [hasDollarBrace, Bool.or_eq_false_iff, decide_eq_false_iff_not] at h
  obtain ⟨hpair, htail⟩ := h
  rcases cs with _ | ⟨c2, cs2⟩
  · simp [renderGo]
  · have hc2 : c2 ≠ '{' := by
      intro heq
      exact hpair (by simp [heq])
    rcases cs2 with _ | ⟨c3, cs3⟩
    · simp [renderGo, hc2]
    · by_cases hc2d : c2 = '$'
      · subst hc2d
        simp only [hasDollarBrace, Bool.or_eq_false_iff,
          decide_eq_false_iff_not] at htail
        have hc3 : c3 ≠ '{' := by
          intro heq
          exact htail.1 (by simp [heq])
        simp [renderGo, hc3]
      · simp [renderGo, hc2, hc2d]

theorem renderGo_lit_noph (t : WTemplate) : ∀ (cs : List Char),
    hasDollarBrace cs = false → ∀ (stack : List String) (supp : Nat)
    (out : List Char),
    renderGo t cs .lit stack supp out
      = renderGo t [] .lit stack supp
          (if supp = 0 then out ++ cs else out) := by
  intro cs
  induction cs with
  | nil =>
    intro h stack supp out
    by_cases hs : supp = 0 <;> simp [hs]
  | cons c cs ih =>
    intro h stack supp out
    have htail : hasDollarBrace cs = false := by
      simp only [hasDollarBrace, Bool.or_eq_false_iff] at h
      exact h.2
    by_cases hc : c = '$'
    · subst hc
      rw [renderGo_dollar_step t h, ih htail]
      by_cases hs : supp = 0 <;> simp [hs]
    · rw [renderGo_lit_cons t c hc, ih htail]
      by_cases hs : supp = 0 <;> simp [hs]

/-- C7: rendering a template text that contains no placeholder opener and no
escape sequence is the identity. -/
theorem render_no_placeholders_identity (t : WTemplate) (text : String)
    (h : hasDollarBrace text.data = false) :
    renderTemplate (setTemplateText t text) = .ok text := by
  rw [renderTemplate_def]
  have htext : (setTemplateText t text).text_ = text := rfl
  rw [htext, renderGo_lit_noph _ text.data h, if_pos rfl, List.nil_append,
      renderGo_nil, if_pos rfl]
  simp [Except.map, asString_data]

/-- Witness for C7 at a concrete placeholder-free text. -/
theorem render_no_placeholders_identity_witness :
    renderTemplate (setTemplateText sampleT "hello $ world \x7d\x7b")
      = .ok "hello $ world \x7d\x7b" :=
  render_no_placeholders_identity sampleT "hello $ world \x7d\x7b" (by decide)

end WtSpec

namespace WtSpec

/-- C8: clear removes all string bindings, widget bindings and condition
values — afterwards every condition is false and every variable resolves to
the unresolved marker — while the function table and the template text are
unchanged. -/
theorem clear_drops_bindings_keeps_functions (t : WTemplate) :
    (clear t).strings_ = [] ∧ (clear t).widgets_ = []
    ∧ (∀ name, conditionValue (clear t) name = false)
    ∧ (∀ name args, resolveString (clear t) name args = "??" ++ name ++ "??")
    ∧ (∀ name args, resolveFunction (clear t) name args
        = resolveFunction t name args)
    ∧ (clear t).functions_ = t.functions_
    ∧ templateText (clear t) = templateText t :=
  ⟨rfl, rfl, fun _ => rfl, fun _ _ => rfl, fun _ _ => rfl, rfl, rfl⟩

/-- C9: setTemplateText replaces only the stored template text; every string
binding, widget binding, condition value and registered function is
unchanged. -/
theorem setTemplateText_only_text (t : WTemplate) (s : String) :
    templateText (setTemplateText t s) = s
    ∧ (setTemplateText t s).strings_ = t.strings_
    ∧ (setTemplateText t s).widgets_ = t.widgets_
    ∧ (setTemplateText t s).conditions_ = t.conditions_
    ∧ (setTemplateText t s).functions_ = t.functions_
    ∧ (∀ name, conditionValue (setTemplateText t s) name
        = conditionValue t name)
    ∧ (∀ name args, resolveString (setTemplateText t s) name args
        = resolveString t name args)
    ∧ (∀ name args, resolveFunction (setTemplateText t s) name args
        = resolveFunction t name args) :=
  ⟨rfl, rfl, rfl, rfl, rfl, fun _ => rfl, fun _ _ => rfl, fun _ _ => rfl⟩

/-- C10: binding a null widget to a name makes a placeholder for that name
resolve to the empty string — it emits nothing rather than the unresolved
marker. -/
theorem bindWidget_null_resolves_empty (t : WTemplate) (name : String)
    (args : List (String × String)) (h : isVarName name = true) :
    resolveString (bindWidget t name none) name args = ""
    ∧ renderTemplate (setTemplateText (bindWidget t name none)
        ("$\x7b" ++ name ++ "\x7d")) = .ok "" := by
  have hstr : alookup name (bindWidget t name none).strings_ = none := by
    simp only [bindWidget]
    exact alookup_aerase_self name t.strings_
  have hwid : alookup name (bindWidget t name none).widgets_
      = some none := by
    simp only [bindWidget]
    exact alookup_ainsert_self name none t.widgets_
  have hres : ∀ ar, resolveString (bindWidget t name none) name ar = "" := by
    intro ar
    simp [resolveString, resolveWidget, hstr, hwid, widgetText]
  refine ⟨hres args, ?_⟩
  rw [renderTemplate_def]
  have htext : (setTemplateText (bindWidget t name none)
      ("$\x7b" ++ name ++ "\x7d")).text_ = "$\x7b" ++ name ++ "\x7d" := rfl
  rw [htext]
  have hdata : ("$\x7b" ++ name ++ "\x7d").data
      = '$' :: '{' :: (name.data ++ '}' :: []) := by
    simp only [data_append, show ("$\x7b" : String).data = ['$', '{'] from
      rfl, show ("\x7d" : String).data = ['}'] from rfl, List.append_assoc,
      List.cons_append, List.nil_append]
  rw [hdata, renderVar_step _ h, renderGo_nil, if_pos rfl]
  have hres2 : resolveString (setTemplateText (bindWidget t name none)
      ("$\x7b" ++ name ++ "\x7d")) name [] = "" := hres []
  simp [Except.map, hres2]
  rfl

/-- Witness for C10 at a concrete name. -/
theorem bindWidget_null_resolves_empty_witness :
    resolveString (bindWidget sampleT "w" none) "w" [] = ""
    ∧ renderTemplate (setTemplateText (bindWidget sampleT "w" none)
        "$\x7bw\x7d") = .ok "" := by
  obtain ⟨h1, h2⟩ := bindWidget_null_resolves_empty sampleT "w" [] (by decide)
  refine ⟨h1, ?_⟩
  rw [show ("$\x7b" ++ "w" ++ "\x7d") = "$\x7bw\x7d" from rfl] at h2
  exact h2

end WtSpec

namespace WtSpec

/-! ### Computation of the argument parser -/

theorem parseArgsGo_key (t : List Char) : ∀ (k : List Char),
    (∀ c ∈ k, isVarChar c = true) → ∀ (kpre : List Char)
    (res : List (String × String)),
    parseArgsGo (k ++ '=' :: t) (.key kpre) res
      = parseArgsGo t (.eq (kpre ++ k)) res := by
  intro k
  induction k with
  | nil =>
    intro hk kpre res
    simp [parseArgsGo]
  | cons c cs ih =>
    intro hk kpre res
    have hc := isVarChar_facts (hk c (by simp))
    rw [List.cons_append]
    rw [show parseArgsGo (c :: (cs ++ '=' :: t)) (.key kpre) res
        = parseArgsGo (cs ++ '=' :: t) (.key (kpre ++ [c])) res from by
      simp [parseArgsGo, hc.2.2.2.2.2.2.2.1, hc.2.2.2.2.2.2.2.2.2.2]]
    rw [ih (fun d hd => hk d (by simp [hd])) (kpre ++ [c]) res]
    simp

theorem parseArgsGo_qval (t : List Char) (q : Char) : ∀ (v : List Char),
    (∀ c ∈ v, c ≠ q) → ∀ (k vpre : List Char)
    (res : List (String × String)),
    parseArgsGo (v ++ q :: t) (.qval k q vpre) res
      = parseArgsGo t .ws
          (res ++ [(k.asString, (vpre ++ v).asString)]) := by
  intro v
  induction v with
  | nil =>
    intro hv k vpre res
    simp [parseArgsGo]
  | cons c cs ih =>
    intro hv k vpre res
    have hc : c ≠ q := hv c (by simp)
    rw [List.cons_append]
    rw [show parseArgsGo (c :: (cs ++ q :: t)) (.qval k q vpre) res
        = parseArgsGo (cs ++ q :: t) (.qval k q (vpre ++ [c])) res from by
      simp [parseArgsGo, hc]]
    rw [ih (fun d hd => hv d (by simp [hd])) k (vpre ++ [c]) res]
    simp

theorem parseArgsGo_qval_end (q : Char) : ∀ (v : List Char),
    (∀ c ∈ v, c ≠ q) → ∀ (k vpre : List Char)
    (res : List (String × String)),
    parseArgsGo v (.qval k q vpre) res = .error .MalformedPlaceholder := by
  intro v
  induction v with
  | nil =>
    intro hv k vpre res
    simp [parseArgsGo]
  | cons c cs ih =>
    intro hv k vpre res
    have hc : c ≠ q := hv c (by simp)
    rw [show parseArgsGo (c :: cs) (.qval k q vpre) res
        = parseArgsGo cs (.qval k q (vpre ++ [c])) res from by
      simp [parseArgsGo, hc]]
    exact ih (fun d hd => hv d (by simp [hd])) k (vpre ++ [c]) res

theorem quote_not_ws {q : Char} (hq : q = dquote ∨ q = squote) :
    q.isWhitespace = false := by
  rcases hq with rfl | rfl <;> decide

theorem parseArgs_token (tl : List Char) {k v : String} (q : Char)
    (hq : q = dquote ∨ q = squote) (hk : isVarName k = true)
    (hv : ∀ c ∈ v.data, c ≠ q) (res : List (String × String)) :
    parseArgsGo (k.data ++ '=' :: q :: (v.data ++ q :: tl)) .ws res
      = parseArgsGo tl .ws (res ++ [(k, v)]) := by
  obtain ⟨hne, hch⟩ := isVarName_spec hk
  rcases hd : k.data with _ | ⟨c, cs⟩
  · exact absurd hd hne
  · have hc := isVarChar_facts (hch c (by rw [hd]; simp))
    have hcw : c.isWhitespace = false := hc.2.2.2.2.2.2.2.2.2.2
    have hce : c ≠ '=' := hc.2.2.2.2.2.2.2.1
    rw [List.cons_append]
    rw [show parseArgsGo (c :: (cs ++ '=' :: q :: (v.data ++ q :: tl)))
          .ws res
        = parseArgsGo (cs ++ '=' :: q :: (v.data ++ q :: tl))
            (.key [c]) res from by
      simp [parseArgsGo, hcw, hce]]
    rw [parseArgsGo_key _ cs (fun d hd2 => hch d (by rw [hd]; simp [hd2]))
        [c] res]
    rw [show parseArgsGo (q :: (v.data ++ q :: tl)) (.eq ([c] ++ cs)) res
        = parseArgsGo (v.data ++ q :: tl) (.qval ([c] ++ cs) q []) res
        from by simp [parseArgsGo, hq]]
    rw [parseArgsGo_qval _ q v.data hv ([c] ++ cs) [] res]
    have : (([c] ++ cs).asString, (([] : List Char) ++ v.data).asString)
        = (k, v) := by
      simp only [List.nil_append, List.cons_append]
      rw [← hd, asString_data, asString_data]
    rw [this]

theorem renderGo_ph_quote_enter (t : WTemplate) {q : Char}
    (hq : q = dquote ∨ q = squote) (cs acc : List Char)
    (stack : List String) (supp : Nat) (out : List Char) :
    renderGo t (q :: cs) (.ph acc none) stack supp out
      = renderGo t cs (.ph (acc ++ [q]) (some q)) stack supp out := by
  have hqb : q ≠ '}' := by
    rcases hq with rfl | rfl <;> decide
  simp [renderGo, hqb, hq]

theorem renderGo_ph_quote_end (t : WTemplate) (q : Char) : ∀ (cs : List Char),
    (∀ c ∈ cs, c ≠ q) → ∀ (acc : List Char) (stack : List String)
    (supp : Nat) (out : List Char),
    renderGo t cs (.ph acc (some q)) stack supp out
      = .error .MalformedPlaceholder := by
  intro cs
  induction cs with
  | nil =>
    intro h acc stack supp out
    simp [renderGo]
  | cons c cs ih =>
    intro h acc stack supp out
    have hc : c ≠ q := h c (by simp)
    rw [show renderGo t (c :: cs) (.ph acc (some q)) stack supp out
        = renderGo t cs (.ph (acc ++ [c]) (some q)) stack supp out from by
      simp [renderGo, hc]]
    exact ih (fun d hd => h d (by simp [hd])) (acc ++ [c]) stack supp out

end WtSpec

namespace WtSpec

/-- C5: the argument parser turns whitespace-separated key=quoted-value
tokens into ordered (key, value) pairs with the quotes stripped — the
concrete example yields exactly class maps-to "a b" and other maps-to "x" —
and an unterminated quoted value is a fatal MalformedPlaceholder error, both
in the parser and in a full render. -/
theorem parseArgs_quoted_arguments :
    parseArgs (" class=".data ++ dquote :: ("a b".data ++ dquote ::
        (" other=".data ++ squote :: ("x".data ++ [squote]))))
      = .ok [("class", "a b"), ("other", "x")]
    ∧ (∀ (k v : String) (q : Char), (q = dquote ∨ q = squote) →
        isVarName k = true → (∀ c ∈ v.data, c ≠ q) →
        parseArgs (k.data ++ '=' :: q :: (v.data ++ [q])) = .ok [(k, v)])
    ∧ (∀ (k1 v1 k2 v2 : String) (q1 q2 : Char),
        (q1 = dquote ∨ q1 = squote) → (q2 = dquote ∨ q2 = squote) →
        isVarName k1 = true → isVarName k2 = true →
        (∀ c ∈ v1.data, c ≠ q1) → (∀ c ∈ v2.data, c ≠ q2) →
        parseArgs (k1.data ++ '=' :: q1 :: (v1.data ++ q1 :: ' ' ::
            (k2.data ++ '=' :: q2 :: (v2.data ++ [q2]))))
          = .ok [(k1, v1), (k2, v2)])
    ∧ (∀ (k v : String) (q : Char), (q = dquote ∨ q = squote) →
        isVarName k = true → (∀ c ∈ v.data, c ≠ q) →
        parseArgs (k.data ++ '=' :: q :: v.data)
          = .error .MalformedPlaceholder)
    ∧ (∀ (t : WTemplate) (v junk : String) (q : Char),
        (q = dquote ∨ q = squote) → isVarName v = true →
        (∀ c ∈ junk.data, c ≠ q) →
        renderTemplate (setTemplateText t
            ("$\x7b" ++ v ++ " k=" ++ [q].asString ++ junk))
          = .error .MalformedPlaceholder) := by
  refine ⟨rfl, ?_, ?_, ?_, ?_⟩
  · intro k v q hq hk hv
    unfold parseArgs
    rw [parseArgs_token [] q hq hk hv []]
    simp [parseArgsGo]
  · intro k1 v1 k2 v2 q1 q2 hq1 hq2 hk1 hk2 hv1 hv2
    unfold parseArgs
    rw [parseArgs_token (' ' :: (k2.data ++ '=' :: q2 :: (v2.data ++ [q2])))
        q1 hq1 hk1 hv1 []]
    rw [show parseArgsGo (' ' :: (k2.data ++ '=' :: q2 ::
          (v2.data ++ [q2]))) .ws ([] ++ [(k1, v1)])
        = parseArgsGo (k2.data ++ '=' :: q2 :: (v2.data ++ [q2])) .ws
            ([] ++ [(k1, v1)]) from by
      simp [parseArgsGo]]
    rw [parseArgs_token [] q2 hq2 hk2 hv2 ([] ++ [(k1, v1)])]
    simp [parseArgsGo]
  · intro k v q hq hk hv
    unfold parseArgs
    obtain ⟨hne, hch⟩ := isVarName_spec hk
    rcases hd : k.data with _ | ⟨c, cs⟩
    · exact absurd hd hne
    · have hc := isVarChar_facts (hch c (by rw [hd]; simp))
      rw [List.cons_append]
      rw [show parseArgsGo (c :: (cs ++ '=' :: q :: v.data)) .ws []
          = parseArgsGo (cs ++ '=' :: q :: v.data) (.key [c]) [] from by
        simp [parseArgsGo, hc.2.2.2.2.2.2.2.1, hc.2.2.2.2.2.2.2.2.2.2]]
      rw [parseArgsGo_key _ cs (fun d hd2 => hch d (by rw [hd]; simp [hd2]))
          [c] []]
      rw [show parseArgsGo (q :: v.data) (.eq ([c] ++ cs)) []
          = parseArgsGo v.data (.qval ([c] ++ cs) q []) [] from by
        simp [parseArgsGo, hq]]
      exact parseArgsGo_qval_end q v.data hv ([c] ++ cs) [] []
  · intro t v junk q hq hv hjunk
    rw [renderTemplate_def]
    have htext : (setTemplateText t
        ("$\x7b" ++ v ++ " k=" ++ [q].asString ++ junk)).text_
        = "$\x7b" ++ v ++ " k=" ++ [q].asString ++ junk := rfl
    rw [htext]
    have hdata : ("$\x7b" ++ v ++ " k=" ++ [q].asString ++ junk).data
        = '$' :: '{' :: ((v.data ++ [' ', 'k', '=']) ++ q :: junk.data) := by
      simp only [data_append, show ("$\x7b" : String).data = ['$', '{'] from
        rfl, show (" k=" : String).data = [' ', 'k', '='] from rfl,
        show ([q].asString).data = [q] from rfl, List.append_assoc,
        List.cons_append, List.nil_append]
    have hin : ∀ c ∈ (v.data ++ [' ', 'k', '=']),
        c ≠ '}' ∧ c ≠ dquote ∧ c ≠ squote := by
      intro c hc
      rcases List.mem_append.mp hc with hc2 | hc2
      · exact varName_inner_ok hv c hc2
      · rcases List.mem_cons.mp hc2 with rfl | hc3
        · refine ⟨by decide, by decide, by decide⟩
        · rcases List.mem_cons.mp hc3 with rfl | hc4
          · refine ⟨by decide, by decide, by decide⟩
          · simp at hc4
            subst hc4
            refine ⟨by decide, by decide, by decide⟩
    rw [hdata, renderGo_open, renderGo_ph_append _ hin,
        renderGo_ph_quote_enter _ hq,
        renderGo_ph_quote_end _ q junk.data hjunk]
    rfl

/-- Witness for C5: the concrete class/other example, a concrete quoted
token, and a concrete unterminated quote failing both in the parser and in a
render. -/
theorem parseArgs_quoted_arguments_witness :
    parseArgs (" class=".data ++ dquote :: ("a b".data ++ dquote ::
        (" other=".data ++ squote :: ("x".data ++ [squote]))))
      = .ok [("class", "a b"), ("other", "x")]
    ∧ parseArgs ("class".data ++ '=' :: dquote :: ("a b".data ++ [dquote]))
      = .ok [("class", "a b")]
    ∧ parseArgs ("k".data ++ '=' :: dquote :: "a b".data)
      = .error .MalformedPlaceholder
    ∧ renderTemplate (setTemplateText sampleT
        ("$\x7b" ++ "v" ++ " k=" ++ [dquote].asString ++ "a b"))
      = .error .MalformedPlaceholder := by
  obtain ⟨h1, h2, h3, h4, h5⟩ := parseArgs_quoted_arguments
  refine ⟨h1, ?_, ?_, ?_⟩
  · exact h2 "class" "a b" dquote (Or.inl rfl) (by decide) (by decide)
  · exact h4 "k" "a b" dquote (Or.inl rfl) (by decide) (by decide)
  · exact h5 sampleT "v" "a b" dquote (Or.inl rfl) (by decide) (by decide)

end WtSpec
